import Mathlib

set_option maxRecDepth 100000

/-!
Shallow embedding of `flexget/entry.py` (the `Entry` record type and its
`LazyField` lazy-evaluation machinery), together with theorems checking the
specification's claims against it.

Modelling conventions:
* Python values stored in an entry are modelled by the inductive `Value`:
  `vstr` is a `unicode` string, `vbytes` a Python 2 byte string (`str`),
  `vnone` is `None`, `vint` a number, `vlazy` a `LazyField` (holding the
  ordered list of resolver-function identifiers), and `vobj` an opaque
  object whose flag records whether `copy.deepcopy` succeeds on it.
* Resolver callbacks are identified by natural numbers; an interpretation
  `Interp` maps an identifier to the pure function `(entry, field) -> value`
  it denotes, with the Python `None` result represented by `vnone`.
  Resolvers are modelled as pure (they do not mutate the entry).
* An `Entry` is its backing dict (an association list in insertion order),
  plus the `snapshots` and `trace` attributes set up by `Entry.__init__`.
* Exceptions are modelled with `Except`: `EntryUnicodeError`, `PluginError`
  and `KeyError` are the three kinds the embedded slice can raise.
  Logging calls have no observable effect and are dropped.
-/

/-- A value stored in an `Entry` field. -/
inductive Value where
  | vstr (s : String)
  | vbytes (data : List Nat)
  | vnone
  | vint (n : Int)
  | vlazy (funcs : List Nat)
  | vobj (id : Nat) (copyable : Bool)
deriving DecidableEq, Repr

/-- Errors raised by the embedded slice of `entry.py`. -/
inductive EError where
  | entryUnicodeError (key : String) (value : Value)
  | pluginError (key : String)
  | keyError (key : String)
deriving DecidableEq, Repr

/-- `isinstance(value, basestring)`: true for `unicode` and byte strings. -/
def Value.isBaseString : Value → Bool
  | .vstr _ => true
  | .vbytes _ => true
  | _ => false

/-- Python 2 `unicode(bytes)` with the default ascii codec: succeeds exactly
when every byte is below 128. -/
def decodeAscii (data : List Nat) : Option String :=
  if data.all (fun b => b < 128) then some (String.mk (data.map Char.ofNat))
  else none

/-- The unicode-coercion step at the top of `Entry.__setitem__`: a byte
string is decoded to `unicode` (raising `EntryUnicodeError` on failure),
every other value passes through unchanged. -/
def coerceUnicode (key : String) (value : Value) : Except EError Value :=
  match value with
  | .vbytes data =>
      match decodeAscii data with
      | some s => .ok (.vstr s)
      | none => .error (.entryUnicodeError key (.vbytes data))
  | v => .ok v

/-- Modelled from the spec: `extract_id` from `flexget.utils.imdb` (not under
`src/`): extracts the imdb identifier from a recognized identifier-bearing
imdb title URL and returns absent for anything else. -/
def extract_id (url : String) : Option String :=
  let pre := "http://www.imdb.com/title/"
  if url.startsWith pre then
    let ident := (url.drop pre.length).takeWhile (fun c => c ≠ '/')
    if ident.startsWith "tt" ∧ (ident.drop 2).all Char.isDigit ∧ ident.length > 2 then
      some ident
    else none
  else none

/-- Modelled from the spec: `make_url` from `flexget.utils.imdb` (not under
`src/`): builds the canonical imdb URL from an identifier. -/
def make_url (ident : String) : String :=
  "http://www.imdb.com/title/" ++ ident ++ "/"

/-- Ordered-dict lookup. -/
def dictGet {α : Type} : List (String × α) → String → Option α
  | [], _ => none
  | (k', v) :: rest, k => if k' = k then some v else dictGet rest k

/-- Ordered-dict store: overwrite in place, else append. -/
def dictSet {α : Type} : List (String × α) → String → α → List (String × α)
  | [], k, v => [(k, v)]
  | (k', v') :: rest, k, v =>
      if k' = k then (k, v) :: rest else (k', v') :: dictSet rest k v

/-- The `Entry` object: its dict contents plus the `snapshots` and `trace`
attributes created by `Entry.__init__`. -/
structure Entry where
  store : List (String × Value)
  snapshots : List (String × List (String × Value))
  trace : List String
deriving DecidableEq, Repr

/-- An interpretation of resolver-function identifiers: the pure callback
`func(entry, field)`, with Python `None` represented by `vnone`. -/
def Interp : Type := Nat → Entry → String → Value

/-- A fresh entry as set up at the top of `Entry.__init__`. -/
def emptyEntry : Entry := ⟨[], [], []⟩

/-- `dict.__getitem__` / `dict.get` on the backing store (no lazy evaluation). -/
def rawGet (e : Entry) (k : String) : Option Value :=
  dictGet e.store k

/-- `LazyField.__call__`: try the resolvers in order and return the first
non-`None` result; fall off the end with `None` when every resolver
returns `None`. -/
def lazyCall (I : Interp) (e : Entry) (field : String) : List Nat → Value
  | [] => .vnone
  | f :: fs =>
      let r := I f e field
      if r = .vnone then lazyCall I e field fs else r

/-- `Entry.__getitem__` as a state transformer: read the raw value, and if it
is a `LazyField` evaluate it. The method performs no store mutation, so the
resulting state is the input state. -/
def getItemS (I : Interp) (e : Entry) (k : String) : Except EError Value × Entry :=
  match rawGet e k with
  | none => (.error (.keyError k), e)
  | some (.vlazy fs) => (.ok (lazyCall I e k fs), e)
  | some v => (.ok v, e)

/-- The value component of `Entry.__getitem__`. -/
def getItem (I : Interp) (e : Entry) (k : String) : Except EError Value :=
  (getItemS I e k).1

/-- `Entry.is_lazy`: the raw stored value is a `LazyField`. -/
def Entry.is_lazy (e : Entry) (field : String) : Bool :=
  match rawGet e field with
  | some (.vlazy _) => true
  | _ => false

/-- `Entry.get(key, default, eval_lazy)`: return `default` instead of
evaluating when `eval_lazy` is false and the field is lazy, otherwise
`__getitem__` with `KeyError` turned into `default`. -/
def Entry.get (I : Interp) (e : Entry) (k : String) (default : Value)
    (evalLazy : Bool) : Value :=
  if evalLazy = false ∧ e.is_lazy k then default
  else
    match getItem I e k with
    | .ok v => v
    | .error _ => default

/-- `Entry.__contains__`: `self.get(key) is not None`. -/
def Entry.contains (I : Interp) (e : Entry) (k : String) : Bool :=
  decide (Entry.get I e k .vnone true ≠ .vnone)

/-- The `imdb_url` canonicalization branch of `Entry.__setitem__`: a string
value is replaced by the canonical URL of its extracted identifier, or by
`None` when no identifier parses; non-string values pass through. -/
def imdbTransform (value : Value) : Value :=
  match value with
  | .vstr s =>
      match extract_id s with
      | some ident => .vstr (make_url ident)
      | none => .vnone
  | v => v

/-- `Entry.__setitem__`: unicode coercion, the `url` / `original_url`
handling (`setdefault` checks presence via `__contains__`, hence with lazy
evaluation), the `title` string check, the `imdb_url` canonicalization, and
finally `dict.__setitem__`. -/
def setItem (I : Interp) (e : Entry) (key : String) (value : Value) :
    Except EError Entry :=
  match coerceUnicode key value with
  | .error err => .error err
  | .ok value =>
      if key = "url" ∧ ¬ value.isBaseString then .error (.pluginError key)
      else
        let e1 :=
          if key = "url" ∧ Entry.contains I e "original_url" = false then
            { e with store := dictSet e.store "original_url" value }
          else e
        if key = "title" ∧ ¬ value.isBaseString then .error (.pluginError key)
        else
          let value := if key = "imdb_url" then imdbTransform value else value
          .ok { e1 with store := dictSet e1.store key value }

/-- `Entry.update` restricted to one iterable of key/value pairs: every pair
is routed through `__setitem__` in iteration order. -/
def Entry.update (I : Interp) (e : Entry) (items : List (String × Value)) :
    Except EError Entry :=
  match items with
  | [] => .ok e
  | (k, v) :: rest =>
      match setItem I e k v with
      | .error err => .error err
      | .ok e1 => Entry.update I e1 rest

/-- `Entry.__init__(title, url)` with exactly two positional arguments:
they are turned into the `title` and `url` keyword fields and routed
through `update`, hence through `__setitem__`. -/
def entryInit2 (I : Interp) (t u : Value) : Except EError Entry :=
  Entry.update I emptyEntry [("title", t), ("url", u)]

/-- Write `k = v` through `__setitem__`, then read `k` back through
`__getitem__`. -/
def writeRead (I : Interp) (e : Entry) (k : String) (v : Value) :
    Except EError Value :=
  match setItem I e k v with
  | .error err => .error err
  | .ok e1 => getItem I e1 k

/-- One iteration of the `unregister_lazy_fields` loop body on `field`:
when the field is lazy, remove the first occurrence of `func` from the
shared resolver list (counting the removal), and when the list is left
empty write `None` to the field through `__setitem__`. -/
def unregStep (I : Interp) (func : Nat) (field : String) (removed : Nat)
    (e : Entry) : Except EError (Nat × Entry) :=
  match rawGet e field with
  | some (.vlazy funcs) =>
      let removed1 := if func ∈ funcs then removed + 1 else removed
      let funcs1 := if func ∈ funcs then funcs.erase func else funcs
      let e1 :=
        if func ∈ funcs then
          { e with store := dictSet e.store field (.vlazy funcs1) }
        else e
      if funcs1.isEmpty then
        match setItem I e1 field .vnone with
        | .error err => .error err
        | .ok e2 => .ok (removed1, e2)
      else .ok (removed1, e1)
  | _ => .ok (removed, e)

/-- The `unregister_lazy_fields` loop over the field list, threading the
removal count and the entry. -/
def unregGo (I : Interp) (func : Nat) :
    List String → Nat → Entry → Except EError (Nat × Entry)
  | [], removed, e => .ok (removed, e)
  | field :: rest, removed, e =>
      match unregStep I func field removed e with
      | .error err => .error err
      | .ok (removed1, e1) => unregGo I func rest removed1 e1

/-- `Entry.unregister_lazy_fields(fields, func)`: returns the number of
removed resolvers together with the updated entry. -/
def unregister_lazy_fields (I : Interp) (e : Entry) (fields : List String)
    (func : Nat) : Except EError (Nat × Entry) :=
  unregGo I func fields 0 e

/-- Whether `copy.deepcopy` succeeds on a value considered on its own: an
opaque object carries its own flag; strings, numbers and `None` always copy;
a `LazyField` reached while its owning entry is already being copied adds no
constraint of its own (the entry is in the memo table, so the cycle
terminates, and resolver functions are atomic for `deepcopy`). -/
def atomCopyable : Value → Bool
  | .vobj _ copyable => copyable
  | _ => true

/-- `copy.deepcopy` on a value stored in entry `e`: an uncopyable opaque
object fails; a `LazyField` holds a back reference to its owning entry, so
deep-copying it recurses into every stored sibling value and fails whenever
one of them is an uncopyable object (the `snapshots` and `trace` attributes
hold prior deep-copy outputs and strings, which copy); every other value
copies as itself. -/
def deepcopyV (e : Entry) : Value → Option Value
  | .vobj _ false => none
  | .vlazy fs =>
      if e.store.all (fun kv => atomCopyable kv.2) then some (.vlazy fs) else none
  | v => some v

/-- The snapshot dict the `take_snapshot` loop accumulates when no copy
failure aborts the call: the deep copy of every stored field whose value
survives `copy.deepcopy`, in store order. -/
def snapOf (e : Entry) : List (String × Value) :=
  e.store.filterMap (fun kv => (deepcopyV e kv.2).map (fun v => (kv.1, v)))

/-- The field loop of `Entry.take_snapshot`: deep-copy each stored field; on
a copy failure (`except TypeError`) the warning line formats `self['title']`
through the unguarded `__getitem__`, which raises `KeyError` when no `title`
key is stored and so aborts the whole call; with a `title` present the
warning is emitted and the offending field skipped. -/
def take_snapshot_fields (I : Interp) (e : Entry) :
    List (String × Value) → Except EError (List (String × Value))
  | [] => .ok []
  | (k, v) :: rest =>
      match deepcopyV e v with
      | some w =>
          match take_snapshot_fields I e rest with
          | .error err => .error err
          | .ok snap => .ok ((k, w) :: snap)
      | none =>
          match getItem I e "title" with
          | .error err => .error err
          | .ok _ => take_snapshot_fields I e rest

/-- `Entry.take_snapshot(name)`: run the field loop; a non-empty snapshot is
stored under `name` in the `snapshots` attribute — when the name is already
present (plain dict containment), the overwrite warning's `self['title']`
subscript likewise raises `KeyError` on a title-less entry before the store
happens; an empty snapshot is not stored at all. -/
def take_snapshot (I : Interp) (e : Entry) (name : String) : Except EError Entry :=
  match take_snapshot_fields I e e.store with
  | .error err => .error err
  | .ok snapshot =>
      if snapshot.isEmpty then .ok e
      else
        if (dictGet e.snapshots name).isSome then
          match getItem I e "title" with
          | .error err => .error err
          | .ok _ => .ok { e with snapshots := dictSet e.snapshots name snapshot }
        else .ok { e with snapshots := dictSet e.snapshots name snapshot }

/-- The text `'%s'` produces for a value (`str`-conversion). The `vlazy` case
can only be reached by a resolver returning a `LazyField` object, since
`__getitem__` already evaluates a stored `LazyField`. -/
def valueStr : Value → String
  | .vstr s => s
  | .vbytes data => String.mk (data.map Char.ofNat)
  | .vnone => "None"
  | .vint n => toString n
  | .vlazy _ => "<LazyField>"
  | .vobj ident _ => "<object " ++ toString ident ++ ">"

/-- `Entry.safe_str`: `'%s | %s' % (self['title'], self['url'])`, where the
subscripts go through `__getitem__` (lazy evaluation, `KeyError` on a
missing key). -/
def safe_str (I : Interp) (e : Entry) : Except EError String :=
  match getItem I e "title" with
  | .error err => .error err
  | .ok t =>
      match getItem I e "url" with
      | .error err => .error err
      | .ok u => .ok (valueStr t ++ " | " ++ valueStr u)

deriving instance DecidableEq for Except

/-- The all-`None` resolver interpretation, used for concrete instances. -/
def I0 : Interp := fun _ _ _ => Value.vnone

/-- Whether field `g` of `e` is lazy with `func` among its resolvers (the
condition under which the `unregister_lazy_fields` loop counts a removal). -/
def lazyHasFunc (e : Entry) (g : String) (func : Nat) : Bool :=
  match rawGet e g with
  | some (.vlazy fs) => decide (func ∈ fs)
  | _ => false

/-! ### Helper lemmas about the ordered-dict primitives -/

lemma dictGet_dictSet_self {α : Type} (st : List (String × α)) (k : String) (v : α) :
    dictGet (dictSet st k v) k = some v := by
  induction st with
  | nil => simp [dictSet, dictGet]
  | cons kv rest ih =>
      obtain ⟨a, b⟩ := kv
      by_cases h : a = k
      · subst h; simp [dictSet, dictGet]
      · simp [dictSet, dictGet, h, ih]

lemma dictGet_dictSet_ne {α : Type} (st : List (String × α)) (k q : String) (v : α)
    (h : q ≠ k) : dictGet (dictSet st k v) q = dictGet st q := by
  induction st with
  | nil => simp [dictSet, dictGet, Ne.symm h]
  | cons kv rest ih =>
      obtain ⟨a, b⟩ := kv
      by_cases ha : a = k
      · subst ha
        simp [dictSet, dictGet, Ne.symm h]
      · simp only [dictSet, if_neg ha]
        by_cases hq : a = q
        · subst hq; simp [dictGet]
        · simp [dictGet, hq, ih]

/-! ### C3: lazy-field resolution order -/

lemma lazyCall_eq_find (I : Interp) (e : Entry) (k : String) (fs : List Nat) :
    lazyCall I e k fs =
      ((fs.map (fun f => I f e k)).find? (fun v => decide (v ≠ Value.vnone))).getD
        Value.vnone := by
  induction fs with
  | nil => rfl
  | cons f rest ih =>
      by_cases h : I f e k = Value.vnone
      · simp [lazyCall, List.find?, h, ih]
      · simp [lazyCall, List.find?, h]

/-- C3: evaluating a lazy field tries the resolvers in registration order and
returns the result of the first resolver producing a non-`None` value; when
every resolver returns `None` the evaluation returns `None` without raising. -/
theorem c3_lazy_resolution (I : Interp) (e : Entry) (k : String) (fs : List Nat)
    (h : rawGet e k = some (.vlazy fs)) :
    getItem I e k =
      .ok (((fs.map (fun f => I f e k)).find? (fun v => decide (v ≠ Value.vnone))).getD
        Value.vnone) := by
  simp [getItem, getItemS, h, lazyCall_eq_find]

/-- Resolver 1 answers `"a"`, every other resolver answers `None`. -/
def I1 : Interp := fun f _ _ => if f = 1 then Value.vstr "a" else Value.vnone

/-- An entry whose field `x` is lazy with resolvers `[0, 1]`. -/
def entC3 : Entry := ⟨[("x", .vlazy [0, 1])], [], []⟩

theorem c3_witness :
    rawGet entC3 "x" = some (Value.vlazy [0, 1]) ∧
    getItem I1 entC3 "x" =
      .ok ((([0, 1].map (fun f => I1 f entC3 "x")).find?
        (fun v => decide (v ≠ Value.vnone))).getD Value.vnone) :=
  ⟨by decide, c3_lazy_resolution I1 entC3 "x" [0, 1] (by decide)⟩

/-! ### C4: a plain read does not mutate the store -/

/-- C4: reading a key whose stored value is a `LazyField` evaluates the
resolvers but leaves the backing store unchanged: afterwards the stored value
is still the same `LazyField` and `is_lazy` still reports true. -/
theorem c4_read_preserves_lazy (I : Interp) (e : Entry) (k : String) (fs : List Nat)
    (h : rawGet e k = some (.vlazy fs)) :
    (getItemS I e k).2 = e ∧
    rawGet (getItemS I e k).2 k = some (.vlazy fs) ∧
    Entry.is_lazy (getItemS I e k).2 k = true := by
  refine ⟨?_, ?_, ?_⟩ <;> simp [getItemS, h, Entry.is_lazy]

theorem c4_witness :
    (getItemS I1 entC3 "x").2 = entC3 ∧
    rawGet (getItemS I1 entC3 "x").2 "x" = some (Value.vlazy [0, 1]) ∧
    Entry.is_lazy (getItemS I1 entC3 "x").2 "x" = true :=
  c4_read_preserves_lazy I1 entC3 "x" [0, 1] (by decide)

/-! ### C5: membership is non-`None`-ness of the resolved value -/

/-- C5: `field in record` holds iff the resolved value of the field is
non-`None`; a concretely stored `None` is reported absent, and for a lazy
field the membership check is exactly the non-`None`-ness of running the
resolver chain. -/
theorem c5_contains_semantics (I : Interp) (e : Entry) (k : String) :
    (Entry.contains I e k = true ↔ Entry.get I e k .vnone true ≠ .vnone) ∧
    (rawGet e k = some .vnone → Entry.contains I e k = false) ∧
    (∀ fs, rawGet e k = some (.vlazy fs) →
      Entry.contains I e k = decide (lazyCall I e k fs ≠ .vnone)) := by
  refine ⟨?_, ?_, ?_⟩
  · simp [Entry.contains]
  · intro h
    simp [Entry.contains, Entry.get, getItem, getItemS, h]
  · intro fs h
    simp [Entry.contains, Entry.get, getItem, getItemS, h]

/-- An entry whose field `y` is concretely stored as `None`. -/
def entNone : Entry := ⟨[("y", .vnone)], [], []⟩

theorem c5_witness :
    Entry.contains I0 entNone "y" = false ∧
    Entry.contains I1 entC3 "x" = decide (lazyCall I1 entC3 "x" [0, 1] ≠ Value.vnone) :=
  ⟨(c5_contains_semantics I0 entNone "y").2.1 (by decide),
   (c5_contains_semantics I1 entC3 "x").2.2 [0, 1] (by decide)⟩

/-! ### C1: write-then-read round trip for string values -/

lemma coerceUnicode_ok_str (k : String) (v c : Value) (hbs : v.isBaseString = true)
    (hc : coerceUnicode k v = .ok c) : ∃ s, c = .vstr s := by
  cases v with
  | vstr s =>
      simp only [coerceUnicode, Except.ok.injEq] at hc
      exact ⟨s, hc.symm⟩
  | vbytes data =>
      cases hd : decodeAscii data with
      | none => simp [coerceUnicode, hd] at hc
      | some s =>
          simp only [coerceUnicode, hd, Except.ok.injEq] at hc
          exact ⟨s, hc.symm⟩
  | vnone => simp [Value.isBaseString] at hbs
  | vint n => simp [Value.isBaseString] at hbs
  | vlazy fs => simp [Value.isBaseString] at hbs
  | vobj i cp => simp [Value.isBaseString] at hbs

/-- C1 (amended): for every string-typed value whose canonical unicode
conversion succeeds and every key other than `imdb_url`, writing the key
through `__setitem__` and reading it back through `__getitem__` returns the
canonical unicode form of the value. -/
theorem c1_write_read_roundtrip (I : Interp) (e : Entry) (k : String) (v c : Value)
    (hk : k ≠ "imdb_url") (hbs : v.isBaseString = true)
    (hc : coerceUnicode k v = .ok c) :
    writeRead I e k v = .ok c := by
  obtain ⟨s, rfl⟩ := coerceUnicode_ok_str k v c hbs hc
  unfold writeRead
  by_cases hcond : k = "url" ∧ Entry.contains I e "original_url" = false
  · obtain ⟨rfl, hctf⟩ := hcond
    have hs : setItem I e "url" v =
        .ok { e with store := dictSet (dictSet e.store "original_url" (.vstr s)) "url" (.vstr s) } := by
      simp [setItem, hc, hctf, Value.isBaseString]
    rw [hs]
    simp [getItem, getItemS, rawGet, dictGet_dictSet_self]
  · have hs : setItem I e k v =
        .ok { e with store := dictSet e.store k (.vstr s) } := by
      simp [setItem, hc, hcond, Value.isBaseString, hk]
    rw [hs]
    simp [getItem, getItemS, rawGet, dictGet_dictSet_self]

/-- C1 counterexample: the round trip fails as stated. Writing a string to
`imdb_url` that carries no imdb identifier stores `None`, so reading back
does not return the canonical form of the written value; and a byte string
that cannot be decoded makes the write (and hence write-then-read) raise
`EntryUnicodeError` instead of returning anything. -/
theorem c1_counterexample :
    writeRead I0 emptyEntry "imdb_url" (.vstr "not-a-valid-imdb-link") ≠
      .ok (.vstr "not-a-valid-imdb-link") ∧
    writeRead I0 emptyEntry "imdb_url" (.vstr "not-a-valid-imdb-link") = .ok .vnone ∧
    writeRead I0 emptyEntry "k" (.vbytes [255]) =
      .error (.entryUnicodeError "k" (.vbytes [255])) :=
  ⟨by decide, by decide, by decide⟩

theorem c1_witness :
    "title" ≠ "imdb_url" ∧ Value.isBaseString (.vstr "a") = true ∧
    coerceUnicode "title" (.vstr "a") = .ok (.vstr "a") ∧
    writeRead I0 emptyEntry "title" (.vstr "a") = .ok (.vstr "a") :=
  ⟨by decide, by decide, by decide,
   c1_write_read_roundtrip I0 emptyEntry "title" (.vstr "a") (.vstr "a")
     (by decide) (by decide) (by decide)⟩

/-! ### C2: `original_url` is set-once-if-absent under `url` writes -/

/-- C2: a successful `url` write on an entry whose `original_url` is absent
(in the code's own sense: resolves to `None`) stores the same value under
both `url` and `original_url`; and when `original_url` is already present,
a `url` write leaves its raw stored value untouched. -/
theorem c2_original_url_set_once (I : Interp) (e : Entry) (v : Value) (e2 : Entry)
    (h : setItem I e "url" v = .ok e2) :
    (Entry.contains I e "original_url" = false →
      ∃ w, rawGet e2 "url" = some w ∧ rawGet e2 "original_url" = some w) ∧
    (Entry.contains I e "original_url" = true →
      rawGet e2 "original_url" = rawGet e "original_url") := by
  unfold setItem at h
  cases hc : coerceUnicode "url" v with
  | error err => rw [hc] at h; cases h
  | ok c =>
      rw [hc] at h
      by_cases hbs : c.isBaseString = true
      · by_cases hct : Entry.contains I e "original_url" = false
        · simp only [hbs, hct] at h
          simp at h
          subst h
          refine ⟨fun _ => ⟨c, ?_, ?_⟩, fun h' => ?_⟩
          · exact dictGet_dictSet_self _ _ _
          · show dictGet (dictSet (dictSet e.store "original_url" c) "url" c) "original_url"
              = some c
            rw [dictGet_dictSet_ne _ _ _ _ (by decide)]
            exact dictGet_dictSet_self _ _ _
          · rw [h'] at hct
            exact absurd hct (by decide)
        · simp only [hbs, hct] at h
          simp at h
          subst h
          refine ⟨fun h' => absurd h' hct, fun _ => ?_⟩
          show dictGet (dictSet e.store "url" c) "original_url" = rawGet e "original_url"
          rw [dictGet_dictSet_ne _ _ _ _ (by decide)]
          rfl
      · rw [Bool.not_eq_true] at hbs
        simp [hbs] at h

/-- The result of `setItem I0 emptyEntry "url" (.vstr "u")`. -/
def entU : Entry := ⟨[("original_url", .vstr "u"), ("url", .vstr "u")], [], []⟩

theorem c2_witness :
    Entry.contains I0 emptyEntry "original_url" = false ∧
    (∃ w, rawGet entU "url" = some w ∧ rawGet entU "original_url" = some w) :=
  ⟨by decide,
   (c2_original_url_set_once I0 emptyEntry (.vstr "u") entU (by decide)).1 (by decide)⟩

/-! ### C10: two-positional-argument construction -/

/-- C10: `Entry(t, u)` interprets the positional arguments as the `title`
and `url` keyword fields and routes them through the enforced write path,
so it produces exactly the state of writing `title = t` then `url = u` on a
fresh entry; for string arguments the result stores `title`, the provenance
copy `original_url`, and `url`. -/
theorem c10_positional_ctor (I : Interp) (t u : Value) :
    entryInit2 I t u =
      (match setItem I emptyEntry "title" t with
       | .error err => .error err
       | .ok e1 => setItem I e1 "url" u) ∧
    ∀ s1 s2 : String, entryInit2 I (.vstr s1) (.vstr s2) =
      .ok ⟨[("title", .vstr s1), ("original_url", .vstr s2), ("url", .vstr s2)], [], []⟩ := by
  constructor
  · unfold entryInit2 Entry.update
    cases h1 : setItem I emptyEntry "title" t with
    | error err => rfl
    | ok e1 =>
        cases h2 : setItem I e1 "url" u with
        | error err => simp [Entry.update, h2]
        | ok e2 => simp [Entry.update, h2]
  · intro s1 s2
    simp [entryInit2, Entry.update, setItem, coerceUnicode, Entry.contains, Entry.get,
      getItem, getItemS, rawGet, Entry.is_lazy, dictGet, dictSet, emptyEntry,
      Value.isBaseString]

/-! ### C9: `safe_str` -/

/-- C9 counterexample: `safe_str` on an entry with no `title` raises
`KeyError` (the subscript `self['title']` is an unguarded `__getitem__`),
refuting "must not raise even if either field is absent". -/
theorem c9_counterexample :
    safe_str I0 emptyEntry = .error (.keyError "title") := by decide

/-- C9 (amended): `safe_str` returns the display string
`"<title> | <url>"` built from the (possibly lazily resolved) `title` and
`url` values whenever both keys are stored; when `title` (resp. `url`) is
missing from the backing store it raises `KeyError` for that key instead. -/
theorem c9_safe_str (I : Interp) (e : Entry) :
    (∀ tv uv, getItem I e "title" = .ok tv → getItem I e "url" = .ok uv →
      safe_str I e = .ok (valueStr tv ++ " | " ++ valueStr uv)) ∧
    (rawGet e "title" = none → safe_str I e = .error (.keyError "title")) ∧
    (∀ tv, rawGet e "title" = some tv → rawGet e "url" = none →
      safe_str I e = .error (.keyError "url")) := by
  refine ⟨?_, ?_, ?_⟩
  · intro tv uv ht hu
    simp [safe_str, ht, hu]
  · intro h
    simp [safe_str, getItem, getItemS, h]
  · intro tv ht hu
    have hok : ∃ w, getItem I e "title" = .ok w := by
      cases tv <;> simp [getItem, getItemS, ht]
    obtain ⟨w, hw⟩ := hok
    simp only [safe_str, hw]
    simp [getItem, getItemS, hu]

/-- An entry with concrete `title` and `url`. -/
def entTU : Entry := ⟨[("title", .vstr "t"), ("url", .vstr "u")], [], []⟩

theorem c9_witness :
    safe_str I0 entTU = .ok (valueStr (.vstr "t") ++ " | " ++ valueStr (.vstr "u")) :=
  (c9_safe_str I0 entTU).1 (.vstr "t") (.vstr "u") (by decide) (by decide)

/-! ### C7: snapshot isolation under later writes -/

lemma setItem_snapshots (I : Interp) (e : Entry) (k : String) (v : Value) (e2 : Entry)
    (h : setItem I e k v = .ok e2) : e2.snapshots = e.snapshots := by
  unfold setItem at h
  repeat' split at h
  all_goals cases h
  all_goals rfl

lemma update_snapshots (I : Interp) :
    ∀ (ws : List (String × Value)) (e e2 : Entry),
      Entry.update I e ws = .ok e2 → e2.snapshots = e.snapshots := by
  intro ws
  induction ws with
  | nil =>
      intro e e2 h
      simp only [Entry.update, Except.ok.injEq] at h
      subst h; rfl
  | cons kv rest ih =>
      intro e e2 h
      obtain ⟨k, v⟩ := kv
      unfold Entry.update at h
      cases hs : setItem I e k v with
      | error err => rw [hs] at h; cases h
      | ok e1 =>
          rw [hs] at h
          rw [ih e1 e2 h]
          exact setItem_snapshots I e k v e1 hs

/-- C7: after a completed `take_snapshot name`, any sequence of field writes
routed through `__setitem__` leaves the captured snapshot under `name`
(indeed the whole `snapshots` attribute) unchanged. -/
theorem c7_snapshot_isolation (I : Interp) (e e1 : Entry) (name : String)
    (writes : List (String × Value)) (e2 : Entry)
    (h1 : take_snapshot I e name = .ok e1)
    (h2 : Entry.update I e1 writes = .ok e2) :
    dictGet e2.snapshots name = dictGet e1.snapshots name := by
  rw [update_snapshots I writes e1 e2 h2]

/-- A live entry about to be snapshotted. -/
def entSnapLive : Entry := ⟨[("title", .vstr "t")], [], []⟩

/-- `entSnapLive` right after `take_snapshot "s1"`. -/
def entSnapMid : Entry := ⟨[("title", .vstr "t")], [("s1", [("title", .vstr "t")])], []⟩

/-- `entSnapMid` after overwriting `title`. -/
def entSnapAfter : Entry := ⟨[("title", .vstr "u")], [("s1", [("title", .vstr "t")])], []⟩

theorem c7_witness :
    dictGet entSnapAfter.snapshots "s1" = dictGet entSnapMid.snapshots "s1" :=
  c7_snapshot_isolation I0 entSnapLive entSnapMid "s1" [("title", .vstr "u")] entSnapAfter
    (by decide) (by decide)

/-! ### C8: per-field snapshot copy failures are recovered locally -/

lemma dictGet_eq_none_of_not_mem {α : Type} (st : List (String × α)) (k : String)
    (h : k ∉ st.map Prod.fst) : dictGet st k = none := by
  induction st with
  | nil => rfl
  | cons kv rest ih =>
      obtain ⟨a, b⟩ := kv
      simp only [List.map_cons, List.mem_cons] at h
      push_neg at h
      simp [dictGet, Ne.symm h.1, ih h.2]

lemma mem_fst_filterMap (g : Value → Option Value) (st : List (String × Value)) (k : String)
    (h : k ∈ (st.filterMap (fun kv => (g kv.2).map (fun v => (kv.1, v)))).map Prod.fst) :
    k ∈ st.map Prod.fst := by
  simp only [List.mem_map, List.mem_filterMap] at h
  obtain ⟨p, ⟨kv, hkv, hf⟩, hpk⟩ := h
  cases hgb : g kv.2 with
  | none => rw [hgb] at hf; cases hf
  | some w =>
      rw [hgb] at hf
      cases hf
      exact List.mem_map.mpr ⟨kv, hkv, hpk⟩

lemma snap_dictGet (g : Value → Option Value) :
    ∀ (st : List (String × Value)) (k : String), (st.map Prod.fst).Nodup →
      dictGet (st.filterMap (fun kv => (g kv.2).map (fun v => (kv.1, v)))) k
        = (dictGet st k).bind g := by
  intro st
  induction st with
  | nil => intro k _; rfl
  | cons kv rest ih =>
      intro k hnd
      obtain ⟨a, b⟩ := kv
      simp only [List.map_cons, List.nodup_cons] at hnd
      obtain ⟨ha, hnd'⟩ := hnd
      by_cases hak : a = k
      · subst hak
        cases hg : g b with
        | some w => simp [dictGet, List.filterMap_cons, hg]
        | none =>
            simp only [List.filterMap_cons, hg, Option.map_none]
            rw [dictGet_eq_none_of_not_mem]
            · simp [dictGet, hg]
            · intro hmem
              exact ha (mem_fst_filterMap g rest a hmem)
      · cases hg : g b with
        | some w =>
            simp only [List.filterMap_cons, hg, Option.map_some]
            simp [dictGet, hak, ih k hnd']
        | none =>
            simp only [List.filterMap_cons, hg, Option.map_none]
            simp [dictGet, hak, ih k hnd']

lemma getItem_ok_of_rawGet (I : Interp) (e : Entry) (k : String) (v : Value)
    (h : rawGet e k = some v) : ∃ w, getItem I e k = .ok w := by
  cases v <;> simp [getItem, getItemS, h]

lemma take_snapshot_fields_ok (I : Interp) (e : Entry) (w : Value)
    (ht : getItem I e "title" = .ok w) :
    ∀ st : List (String × Value),
      take_snapshot_fields I e st =
        .ok (st.filterMap (fun kv => (deepcopyV e kv.2).map (fun v => (kv.1, v)))) := by
  intro st
  induction st with
  | nil => rfl
  | cons kv rest ih =>
      obtain ⟨k, v⟩ := kv
      cases hd : deepcopyV e v with
      | some u => simp [take_snapshot_fields, hd, ih, List.filterMap_cons]
      | none => simp [take_snapshot_fields, hd, ht, ih, List.filterMap_cons]

lemma take_snapshot_fields_store (I : Interp) (e : Entry) (w : Value)
    (ht : getItem I e "title" = .ok w) :
    take_snapshot_fields I e e.store = .ok (snapOf e) :=
  take_snapshot_fields_ok I e w ht e.store

lemma take_snapshot_ok (I : Interp) (e : Entry) (name : String) (w : Value)
    (ht : getItem I e "title" = .ok w) :
    take_snapshot I e name =
      .ok (if (snapOf e).isEmpty then e
           else { e with snapshots := dictSet e.snapshots name (snapOf e) }) := by
  simp only [take_snapshot, take_snapshot_fields_store I e w ht]
  by_cases hse : (snapOf e).isEmpty
  · simp [hse]
  · by_cases ho : (dictGet e.snapshots name).isSome
    · simp [hse, ho, ht]
    · simp [hse, ho]

/-- An entry with one copyable field, one uncopyable opaque object and no
`title` key. -/
def entSnapMix : Entry := ⟨[("a", .vstr "x"), ("b", .vobj 0 false)], [], []⟩

/-- C8 counterexample: on a record with no stored `title`, a per-field
deep-copy failure is not recovered locally — the warning line's
`self['title']` subscript raises `KeyError`, the whole `take_snapshot` call
aborts, and nothing (not even the copyable field `a`) is stored. -/
theorem c8_counterexample :
    take_snapshot I0 entSnapMix "s" = .error (.keyError "title") := by decide

/-- C8 (amended): on a record whose `title` key is stored, `take_snapshot`
recovers per-field: a field whose value cannot be deep-copied is omitted
from the captured snapshot while every copyable field is captured with its
copied value, the call completes normally, and when no field at all is
copyable nothing is stored under the snapshot name. (Without a stored
`title`, a copy failure aborts the call with `KeyError` from the warning
line instead.) -/
theorem c8_snapshot_error_recovery (I : Interp) (e : Entry) (name : String)
    (tv : Value) (ht : rawGet e "title" = some tv)
    (hnd : (e.store.map Prod.fst).Nodup) :
    (snapOf e ≠ [] → ∃ e2, take_snapshot I e name = .ok e2 ∧
      dictGet e2.snapshots name = some (snapOf e)) ∧
    (snapOf e = [] → take_snapshot I e name = .ok e) ∧
    (∀ k v, rawGet e k = some v → deepcopyV e v = none → dictGet (snapOf e) k = none) ∧
    (∀ k v w, rawGet e k = some v → deepcopyV e v = some w →
      dictGet (snapOf e) k = some w) := by
  obtain ⟨w, hw⟩ := getItem_ok_of_rawGet I e "title" tv ht
  have hts := take_snapshot_ok I e name w hw
  have hmain : ∀ k, dictGet (snapOf e) k = (rawGet e k).bind (deepcopyV e) :=
    fun k => snap_dictGet (deepcopyV e) e.store k hnd
  refine ⟨?_, ?_, ?_, ?_⟩
  · intro hne
    have hq : (snapOf e).isEmpty = false := by
      cases hs : snapOf e with
      | nil => exact absurd hs hne
      | cons a l => rfl
    refine ⟨{ e with snapshots := dictSet e.snapshots name (snapOf e) }, ?_, ?_⟩
    · rw [hts]
      simp [hq]
    · exact dictGet_dictSet_self _ _ _
  · intro hq
    rw [hts]
    simp [hq]
  · intro k v h1 h2
    rw [hmain k, h1]
    simp [h2]
  · intro k v w2 h1 h2
    rw [hmain k, h1]
    simp [h2]

/-- `entSnapMix` with a `title` field added: the copy failure on `b` is then
recovered locally. -/
def entSnapMixT : Entry := ⟨[("title", .vstr "t"), ("b", .vobj 0 false)], [], []⟩

theorem c8_witness :
    ∃ e2, take_snapshot I0 entSnapMixT "s" = .ok e2 ∧
      dictGet e2.snapshots "s" = some (snapOf entSnapMixT) :=
  (c8_snapshot_error_recovery I0 entSnapMixT "s" (.vstr "t") (by decide)
    (by decide)).1 (by decide)

/-! ### C6: `unregister_lazy_fields` -/

/-- The number of removals `unregister_lazy_fields` performs, read off the
initial entry: one per listed field that is lazy with `func` registered. -/
def countRemovable (e : Entry) (func : Nat) : List String → Nat
  | [] => 0
  | g :: rest => (if lazyHasFunc e g func then 1 else 0) + countRemovable e func rest

lemma lazyHasFunc_congr (e e' : Entry) (g : String) (func : Nat)
    (h : rawGet e g = rawGet e' g) : lazyHasFunc e g func = lazyHasFunc e' g func := by
  unfold lazyHasFunc
  rw [h]

lemma countRemovable_congr (e e' : Entry) (func : Nat) :
    ∀ rest : List String, (∀ g ∈ rest, rawGet e g = rawGet e' g) →
      countRemovable e func rest = countRemovable e' func rest := by
  intro rest
  induction rest with
  | nil => intro _; rfl
  | cons g tl ih =>
      intro hag
      unfold countRemovable
      rw [lazyHasFunc_congr e e' g func (hag g (by simp)),
        ih (fun q hq => hag q (by simp [hq]))]

/-- `setItem` with `None` raises `PluginError` exactly on `url` and `title`. -/
lemma setItem_vnone_url_title (I : Interp) (e : Entry) :
    setItem I e "url" .vnone = .error (.pluginError "url") ∧
    setItem I e "title" .vnone = .error (.pluginError "title") := by
  constructor <;>
    (unfold setItem
     simp only [coerceUnicode]
     simp only [Value.isBaseString]
     simp)

lemma imdbTransform_vnone : imdbTransform Value.vnone = Value.vnone := rfl

lemma setItem_vnone_ok_aux (I : Interp) (e : Entry) (g : String) (e2 : Entry)
    (hg : ¬ g = "url") (ht : ¬ g = "title") (hi : ¬ g = "imdb_url")
    (h : setItem I e g .vnone = .ok e2) :
    e2 = { e with store := dictSet e.store g .vnone } := by
  unfold setItem at h
  simp only [coerceUnicode] at h
  simp only [Value.isBaseString] at h
  simp only [hg, ht, hi, false_and, and_false, if_false, reduceIte, ite_self,
    Except.ok.injEq] at h
  exact h.symm

lemma setItem_vnone_imdb (I : Interp) (e : Entry) (e2 : Entry)
    (h : setItem I e "imdb_url" .vnone = .ok e2) :
    e2 = { e with store := dictSet e.store "imdb_url" .vnone } := by
  unfold setItem at h
  simp only [coerceUnicode] at h
  simp only [Value.isBaseString] at h
  simp only [String.reduceEq] at h
  simp only [false_and, if_false, if_true, imdbTransform_vnone, Except.ok.injEq] at h
  exact h.symm

lemma setItem_vnone_ok (I : Interp) (e : Entry) (g : String) (e2 : Entry)
    (h : setItem I e g .vnone = .ok e2) :
    e2 = { e with store := dictSet e.store g .vnone } := by
  by_cases hg : g = "url"
  · subst hg
    rw [(setItem_vnone_url_title I e).1] at h
    cases h
  · by_cases ht : g = "title"
    · subst ht
      rw [(setItem_vnone_url_title I e).2] at h
      cases h
    · by_cases hi : g = "imdb_url"
      · subst hi
        exact setItem_vnone_imdb I e e2 h
      · exact setItem_vnone_ok_aux I e g e2 hg ht hi h

lemma unregStep_spec (I : Interp) (func : Nat) (g : String) (r : Nat) (e : Entry)
    (r2 : Nat) (e2 : Entry) (h : unregStep I func g r e = .ok (r2, e2)) :
    (∀ k, k ≠ g → rawGet e2 k = rawGet e k) ∧
    r2 = r + (if lazyHasFunc e g func then 1 else 0) ∧
    (∀ fs, rawGet e g = some (.vlazy fs) →
      (if (if func ∈ fs then fs.erase func else fs).isEmpty = true
       then rawGet e2 g = some .vnone
       else rawGet e2 g = some (.vlazy (if func ∈ fs then fs.erase func else fs)))) := by
  unfold unregStep at h
  cases hg : rawGet e g with
  | none =>
      rw [hg] at h
      simp only [Except.ok.injEq, Prod.mk.injEq] at h
      obtain ⟨hr, he⟩ := h
      subst hr
      subst he
      refine ⟨fun k _ => rfl, by simp [lazyHasFunc, hg], ?_⟩
      intro fs hfs
      exact Option.noConfusion hfs
  | some v =>
      rw [hg] at h
      cases v with
      | vlazy fs0 =>
          by_cases hm : func ∈ fs0
          · simp only [hm, if_true, reduceIte] at h
            by_cases hemp : (fs0.erase func).isEmpty = true
            · rw [if_pos hemp] at h
              cases hset : setItem I
                  { e with store := dictSet e.store g (.vlazy (fs0.erase func)) } g .vnone with
              | error err => rw [hset] at h; cases h
              | ok e3 =>
                  rw [hset] at h
                  simp only [Except.ok.injEq, Prod.mk.injEq] at h
                  obtain ⟨hr, he⟩ := h
                  subst hr
                  subst he
                  have h3 := setItem_vnone_ok I _ g e3 hset
                  subst h3
                  refine ⟨?_, by simp [lazyHasFunc, hg, hm], ?_⟩
                  · intro k hk
                    show dictGet (dictSet (dictSet e.store g (.vlazy (fs0.erase func))) g
                      .vnone) k = rawGet e k
                    rw [dictGet_dictSet_ne _ _ _ _ hk, dictGet_dictSet_ne _ _ _ _ hk]
                    rfl
                  · intro fs hfs
                    have hfs3 : fs0 = fs :=
                      Value.vlazy.inj (Option.some.inj hfs)
                    subst hfs3
                    rw [if_pos hm, if_pos hemp]
                    exact dictGet_dictSet_self _ _ _
            · rw [if_neg hemp] at h
              simp only [Except.ok.injEq, Prod.mk.injEq] at h
              obtain ⟨hr, he⟩ := h
              subst hr
              subst he
              refine ⟨?_, by simp [lazyHasFunc, hg, hm], ?_⟩
              · intro k hk
                show dictGet (dictSet e.store g (.vlazy (fs0.erase func))) k = rawGet e k
                rw [dictGet_dictSet_ne _ _ _ _ hk]
                rfl
              · intro fs hfs
                have hfs3 : fs0 = fs :=
                  Value.vlazy.inj (Option.some.inj hfs)
                subst hfs3
                rw [if_pos hm, if_neg hemp]
                exact dictGet_dictSet_self _ _ _
          · simp only [hm, if_false, reduceIte] at h
            by_cases hemp : fs0.isEmpty = true
            · rw [if_pos hemp] at h
              cases hset : setItem I e g .vnone with
              | error err => rw [hset] at h; cases h
              | ok e3 =>
                  rw [hset] at h
                  simp only [Except.ok.injEq, Prod.mk.injEq] at h
                  obtain ⟨hr, he⟩ := h
                  subst hr
                  subst he
                  have h3 := setItem_vnone_ok I e g e3 hset
                  subst h3
                  refine ⟨?_, by simp [lazyHasFunc, hg, hm], ?_⟩
                  · intro k hk
                    show dictGet (dictSet e.store g .vnone) k = rawGet e k
                    rw [dictGet_dictSet_ne _ _ _ _ hk]
                    rfl
                  · intro fs hfs
                    have hfs3 : fs0 = fs :=
                      Value.vlazy.inj (Option.some.inj hfs)
                    subst hfs3
                    rw [if_neg hm, if_pos hemp]
                    exact dictGet_dictSet_self _ _ _
            · rw [if_neg hemp] at h
              simp only [Except.ok.injEq, Prod.mk.injEq] at h
              obtain ⟨hr, he⟩ := h
              subst hr
              subst he
              refine ⟨fun k _ => rfl, by simp [lazyHasFunc, hg, hm], ?_⟩
              intro fs hfs
              have hfs3 : fs0 = fs :=
                Value.vlazy.inj (Option.some.inj hfs)
              subst hfs3
              rw [if_neg hm, if_neg hemp]
              exact hg
      | vstr s =>
          simp only [Except.ok.injEq, Prod.mk.injEq] at h
          obtain ⟨hr, he⟩ := h
          subst hr
          subst he
          refine ⟨fun k _ => rfl, by simp [lazyHasFunc, hg], ?_⟩
          intro fs hfs
          exact Value.noConfusion (Option.some.inj hfs)
      | vbytes d =>
          simp only [Except.ok.injEq, Prod.mk.injEq] at h
          obtain ⟨hr, he⟩ := h
          subst hr
          subst he
          refine ⟨fun k _ => rfl, by simp [lazyHasFunc, hg], ?_⟩
          intro fs hfs
          exact Value.noConfusion (Option.some.inj hfs)
      | vnone =>
          simp only [Except.ok.injEq, Prod.mk.injEq] at h
          obtain ⟨hr, he⟩ := h
          subst hr
          subst he
          refine ⟨fun k _ => rfl, by simp [lazyHasFunc, hg], ?_⟩
          intro fs hfs
          exact Value.noConfusion (Option.some.inj hfs)
      | vint n =>
          simp only [Except.ok.injEq, Prod.mk.injEq] at h
          obtain ⟨hr, he⟩ := h
          subst hr
          subst he
          refine ⟨fun k _ => rfl, by simp [lazyHasFunc, hg], ?_⟩
          intro fs hfs
          exact Value.noConfusion (Option.some.inj hfs)
      | vobj i cp =>
          simp only [Except.ok.injEq, Prod.mk.injEq] at h
          obtain ⟨hr, he⟩ := h
          subst hr
          subst he
          refine ⟨fun k _ => rfl, by simp [lazyHasFunc, hg], ?_⟩
          intro fs hfs
          exact Value.noConfusion (Option.some.inj hfs)

lemma unregGo_spec (I : Interp) (func : Nat) :
    ∀ (fields : List String), fields.Nodup →
      ∀ (r n : Nat) (e e2 : Entry), unregGo I func fields r e = .ok (n, e2) →
        n = r + countRemovable e func fields ∧
        (∀ k, k ∉ fields → rawGet e2 k = rawGet e k) ∧
        (∀ g ∈ fields, ∀ fs, rawGet e g = some (.vlazy fs) →
          (if (if func ∈ fs then fs.erase func else fs).isEmpty = true
           then rawGet e2 g = some .vnone ∧ Entry.is_lazy e2 g = false
           else rawGet e2 g = some (.vlazy (if func ∈ fs then fs.erase func else fs)) ∧
             Entry.is_lazy e2 g = true)) := by
  intro fields
  induction fields with
  | nil =>
      intro _ r n e e2 h
      simp only [unregGo, Except.ok.injEq, Prod.mk.injEq] at h
      obtain ⟨hr, he⟩ := h
      subst hr
      subst he
      exact ⟨by simp [countRemovable], fun k _ => rfl,
        fun g hg => absurd hg (List.not_mem_nil g)⟩
  | cons g rest ih =>
      intro hnd r n e e2 h
      obtain ⟨hg_nmem, hnd'⟩ : g ∉ rest ∧ rest.Nodup := by
        simpa [List.nodup_cons] using hnd
      unfold unregGo at h
      cases hs : unregStep I func g r e with
      | error err => rw [hs] at h; cases h
      | ok p =>
          obtain ⟨r1, e1⟩ := p
          rw [hs] at h
          obtain ⟨hframe1, hcount1, hpost1⟩ := unregStep_spec I func g r e r1 e1 hs
          obtain ⟨ihc, ihf, ihp⟩ := ih hnd' r1 n e1 e2 h
          refine ⟨?_, ?_, ?_⟩
          · rw [ihc, hcount1, countRemovable_congr e1 e func rest
              (fun q hq => hframe1 q (fun hqg => hg_nmem (hqg ▸ hq)))]
            simp only [countRemovable]
            omega
          · intro k hk
            have hk1 : k ∉ rest := fun hmem => hk (by simp [hmem])
            have hkg : k ≠ g := fun hh => hk (by simp [hh])
            rw [ihf k hk1, hframe1 k hkg]
          · intro q hq fs hfs
            rcases List.mem_cons.mp hq with hq1 | hq2
            · subst hq1
              have hpost := hpost1 fs hfs
              have hfr : rawGet e2 q = rawGet e1 q := ihf q hg_nmem
              by_cases hc : (if func ∈ fs then fs.erase func else fs).isEmpty = true
              · rw [if_pos hc] at hpost ⊢
                refine ⟨by rw [hfr, hpost], ?_⟩
                unfold Entry.is_lazy
                rw [hfr, hpost]
              · rw [if_neg hc] at hpost ⊢
                refine ⟨by rw [hfr, hpost], ?_⟩
                unfold Entry.is_lazy
                rw [hfr, hpost]
            · have hqg : q ≠ g := fun hh => hg_nmem (hh ▸ hq2)
              have hfs1 : rawGet e1 q = some (.vlazy fs) := by
                rw [hframe1 q hqg, hfs]
              exact ihp q hq2 fs hfs1

/-- C6: a successful `unregister_lazy_fields(fields, func)` call (on a
duplicate-free field list) returns exactly the number of listed fields that
were lazy with `func` among their resolvers, removes the first occurrence of
`func` from each such field's resolver list, and collapses a field whose
resolver list becomes empty to a stored `None` (no longer reported lazy);
a lazy field whose list stays non-empty remains lazy with the shrunk list. -/
theorem c6_unregister_lazy_fields (I : Interp) (e : Entry) (fields : List String)
    (func n : Nat) (e2 : Entry) (hnd : fields.Nodup)
    (h : unregister_lazy_fields I e fields func = .ok (n, e2)) :
    n = countRemovable e func fields ∧
    (∀ g ∈ fields, ∀ fs, rawGet e g = some (.vlazy fs) →
      (if (if func ∈ fs then fs.erase func else fs).isEmpty = true
       then rawGet e2 g = some .vnone ∧ Entry.is_lazy e2 g = false
       else rawGet e2 g = some (.vlazy (if func ∈ fs then fs.erase func else fs)) ∧
         Entry.is_lazy e2 g = true)) := by
  obtain ⟨hc, _, hp⟩ := unregGo_spec I func fields hnd 0 n e e2 h
  exact ⟨by simpa using hc, hp⟩

/-- An entry whose field `x` is lazy with the single resolver `5`. -/
def entL5 : Entry := ⟨[("x", .vlazy [5])], [], []⟩

/-- `entL5` after unregistering resolver `5` from `x`. -/
def entL5After : Entry := ⟨[("x", .vnone)], [], []⟩

theorem c6_witness :
    1 = countRemovable entL5 5 ["x"] ∧
    (rawGet entL5After "x" = some Value.vnone ∧ Entry.is_lazy entL5After "x" = false) := by
  have h := c6_unregister_lazy_fields I0 entL5 ["x"] 5 1 entL5After (by decide) (by decide)
  refine ⟨h.1, ?_⟩
  have h2 := h.2 "x" (by decide) [5] (by decide)
  rw [if_pos (by decide : (if 5 ∈ [5] then List.erase [5] 5 else [5]).isEmpty = true)] at h2
  exact h2
